import Mathlib

/-!
Verification development for the zwallpaper catalog / cache / wallpaper engine
(`src/main.py`).  Strings are modelled as `List Char` restricted to the ASCII
fragment that filenames and desktop-session identifiers use; every Python
string operation the program performs (`rsplit`, `replace`, `split`, `lower`,
`title`, `in`, `endswith`) is embedded as an executable Lean function.
-/

set_option autoImplicit false

namespace ZWallpaper

/-! ### ASCII case model (the fragment of Python `str.lower` / `str.title`
used on filenames) -/

def lowersList : List Char :=
  ['a', 'b', 'c', 'd', 'e', 'f', 'g', 'h', 'i', 'j', 'k', 'l', 'm',
   'n', 'o', 'p', 'q', 'r', 's', 't', 'u', 'v', 'w', 'x', 'y', 'z']

def uppersList : List Char :=
  ['A', 'B', 'C', 'D', 'E', 'F', 'G', 'H', 'I', 'J', 'K', 'L', 'M',
   'N', 'O', 'P', 'Q', 'R', 'S', 'T', 'U', 'V', 'W', 'X', 'Y', 'Z']

/-- Pairs `(lowercase, uppercase)`. -/
def caseTable : List (Char × Char) := lowersList.zip uppersList

def toUpperA (c : Char) : Char := (List.lookup c caseTable).getD c

def toLowerA (c : Char) : Char :=
  (List.lookup c (caseTable.map Prod.swap)).getD c

/-- A character is cased (in the ASCII fragment) iff it is a letter. -/
def isCasedA (c : Char) : Bool := lowersList.contains c || uppersList.contains c

/-- Python `str.lower()` on the ASCII fragment. -/
def pyLower (s : List Char) : List Char := s.map toLowerA

/-- Python `str.title()` on the ASCII fragment: a cased character is
uppercased when the previous character was not cased, lowercased otherwise;
uncased characters pass through.  The `Bool` argument records whether the
previous character was cased. -/
def pyTitleAux : Bool → List Char → List Char
  | _, [] => []
  | prev, c :: rest =>
    if isCasedA c then
      (if prev then toLowerA c else toUpperA c) :: pyTitleAux true rest
    else
      c :: pyTitleAux false rest

def pyTitle (s : List Char) : List Char := pyTitleAux false s

/-! ### Python string operations -/

/-- Python `str.replace(pat, rep)` (all non-overlapping occurrences, left to
right), written with explicit fuel so that it is structurally recursive and
computes by `rfl`/`decide`.  The fuel is only consumed one unit per examined
character, so any fuel `≥ s.length` gives the real result. -/
def pyReplaceF (pat rep : List Char) : Nat → List Char → List Char
  | _, [] => []
  | 0, s => s
  | fuel + 1, c :: rest =>
    if pat ≠ [] ∧ pat.isPrefixOf (c :: rest) then
      rep ++ pyReplaceF pat rep fuel (rest.drop (pat.length - 1))
    else
      c :: pyReplaceF pat rep fuel rest

def pyReplace (pat rep s : List Char) : List Char :=
  pyReplaceF pat rep s.length s

/-- Python `name.rsplit(sep, 1)[0]` for a one-character separator: everything
before the last occurrence of the separator, or the whole string when absent.
`main.py` line 114 / 409 uses it with `sep = dot` to strip the extension. -/
def stripExt (s : List Char) : List Char :=
  if '.' ∈ s then ((s.reverse.dropWhile (fun c => c ≠ '.')).tail).reverse else s

/-- The resolution-suffix tokens removed by `format_name`
(`main.py` lines 115-116 / 410-411), in source order. -/
def resTokens : List (List Char) :=
  [['_', '4', 'k'], ['_', '2', 'k'],
   ['_', '1', '0', '8', '0', 'p'], ['_', '1', '4', '4', '0', 'p'],
   ['_', '2', '1', '6', '0', 'p'], ['_', '8', 'k']]

def stripRes (s : List Char) : List Char :=
  resTokens.foldl (fun acc tok => pyReplace tok [] acc) s

/-- `PreviewWindow.format_name` / `WallpaperCard.format_name`
(`main.py` lines 112-118 and 407-413): strip the extension, delete the
resolution tokens, turn underscores and hyphens into spaces, title-case. -/
def format_name (s : List Char) : List Char :=
  pyTitle (pyReplace ['-'] [' '] (pyReplace ['_'] [' '] (stripRes (stripExt s))))

/-- Python `str.split(sep)` for a one-character separator
(`"a/b" ↦ ["a","b"]`, `"" ↦ [""]`, `"a/" ↦ ["a",""]`). -/
def pySplit (sep : Char) : List Char → List (List Char)
  | [] => [[]]
  | c :: rest =>
    if c = sep then [] :: pySplit sep rest
    else
      match pySplit sep rest with
      | [] => [[c]]
      | g :: gs => (c :: g) :: gs

/-- Python substring membership `pat in s`. -/
def containsSub (pat s : List Char) : Bool :=
  s.tails.any (fun t => pat.isPrefixOf t)

/-! ### Catalog model (`ZWallpaperApp._load_wallpapers_worker`,
`main.py` lines 579-659) -/

/-- One entry of the Archive.org manifest: `file['name']` and
`file.get('size', 0)`. -/
structure RawFile where
  name : List Char
  size : Nat
  deriving DecidableEq

/-- The `wallpaper_data` dictionary built at `main.py` lines 631-637. -/
structure WallItem where
  name : List Char
  category : List Char
  downloadURL : List Char
  path : List Char
  size : Nat
  deriving DecidableEq

/-- Allowed image extensions, checked case-insensitively on the whole path
(`main.py` line 608). -/
def allowedExts : List (List Char) :=
  [".jpg".toList, ".jpeg".toList, ".png".toList, ".webp".toList,
   ".bmp".toList]

def hasImageExt (name : List Char) : Bool :=
  allowedExts.any (fun e => e.isSuffixOf (pyLower name))

/-- Archive.org metadata suffix check (`main.py` line 613). -/
def isMetaFile (name : List Char) : Bool :=
  List.isSuffixOf "_files.xml".toList name ||
    List.isSuffixOf "_meta.xml".toList name ||
    List.isSuffixOf "_meta.sqlite".toList name

/-- Category segment: `parts[0]` when the split has more than one part, else
the sentinel (`main.py` lines 618-625). -/
def categoryOf (name : List Char) : List Char :=
  let parts := pySplit '/' name
  if 1 < parts.length then parts.headD [] else "uncategorized".toList

/-- Filename segment: `parts[-1]` when the split has more than one part, else
the whole path (`main.py` lines 618-625). -/
def fileNameOf (name : List Char) : List Char :=
  let parts := pySplit '/' name
  if 1 < parts.length then parts.getLastD [] else name

def archiveBaseURL : List Char :=
  "https://archive.org/download/zwallpaper/".toList

/-- The per-file body of the manifest loop (`main.py` lines 603-644):
`none` when the file is skipped by one of the three filters, otherwise the
`wallpaper_data` record. -/
def processFile (f : RawFile) : Option WallItem :=
  if ¬ hasImageExt f.name then none
  else if isMetaFile f.name then none
  else
    let category := categoryOf f.name
    let filename := fileNameOf f.name
    if containsSub "thumb".toList (pyLower category) ||
        containsSub "thumb".toList (pyLower filename) then none
    else
      some
        { name := filename
          category := category
          downloadURL := archiveBaseURL ++ f.name
          path := f.name
          size := f.size }

/-- The app's catalog state: `self.categories` (a Python dict, insertion
ordered, modelled as an association list) and `self.all_wallpapers`. -/
structure Catalog where
  cats : List (List Char × List WallItem)
  allItems : List WallItem
  deriving DecidableEq

def emptyCatalog : Catalog := ⟨[], []⟩

/-- `self.categories[category].append(...)` with on-demand key creation
(`main.py` lines 639-642). -/
def addCat (it : WallItem) : List (List Char × List WallItem) →
    List (List Char × List WallItem)
  | [] => [(it.category, [it])]
  | (k, v) :: rest =>
    if k = it.category then (k, v ++ [it]) :: rest
    else (k, v) :: addCat it rest

/-- One loop iteration of `_load_wallpapers_worker`: skipped files leave the
state unchanged, qualifying files are appended to both structures. -/
def stepFile (st : Catalog) (f : RawFile) : Catalog :=
  match processFile f with
  | none => st
  | some it => ⟨addCat it st.cats, st.allItems ++ [it]⟩

/-- The catalog built from a manifest, starting from the empty state. -/
def buildCatalog (files : List RawFile) : Catalog :=
  files.foldl stepFile emptyCatalog

/-- Outcome reported by `_load_wallpapers_worker` to the status bar:
either the caught exception's message (`main.py` lines 654-659) or the
success message `"Loaded {n} wallpapers"` (line 652). -/
inductive LoadOutcome where
  | errorMsg (msg : List Char)
  | loadedCount (n : Nat)
  deriving DecidableEq

def noFilesMsg : List Char :=
  "No files found in Archive.org item. Make sure you uploaded wallpapers!".toList

/-- `_load_wallpapers_worker` after a successful manifest fetch and parse:
an empty `files` list raises `ValueError` (line 599-600), caught at line 654
and surfaced as an error status; otherwise the loop runs and the success
status reports the number of loaded wallpapers. -/
def loadWorker (files : List RawFile) : LoadOutcome :=
  if files = [] then .errorMsg noFilesMsg
  else .loadedCount (buildCatalog files).allItems.length

/-- The sequence of catalog states a reader can observe during
`refresh_wallpapers` (`main.py` lines 765-769) followed by the worker loop:
first the state right after `categories.clear()` / `all_wallpapers.clear()`
(the empty catalog), then the state after each manifest entry is processed.
The worker appends entry by entry into the shared live structures, so every
one of these states is observable. -/
def refreshTrace (files : List RawFile) : List Catalog :=
  List.scanl stepFile emptyCatalog files

/-! ### Image cache model (`WallpaperCard.load_thumbnail`, lines 415-442,
and `PreviewWindow._load_image_worker`, lines 213-254)

A tier's on-disk state is the set of file names present in its directory.
`cacheGet` is one complete `get`: the `exists()` check, then on a miss a
network fetch (counted by the returned `Nat`), and — when the operation
stores, as the thumbnail path does at line 428 — a write of
`{tier-dir}/{fileName}`.  `_load_image_worker` fetches without storing
(`stores = false`); the full file is only written by `_apply_worker`. -/

structure TierCache where
  stored : List (List Char)
  deriving DecidableEq

/-- The deterministic local path `{tier-dir}/{fileName}`. -/
def cachePath (tierDir name : List Char) : List Char :=
  tierDir ++ '/' :: name

/-- One `get`: result is (new disk state, returned local path, number of
network fetches performed). -/
def cacheGet (tierDir : List Char) (stores : Bool) (c : TierCache)
    (name : List Char) : TierCache × List Char × Nat :=
  if name ∈ c.stored then (c, cachePath tierDir name, 0)
  else
    (⟨if stores then name :: c.stored else c.stored⟩,
      cachePath tierDir name, 1)

/-- Run a sequence of `get`s (each with its own store flag) against a tier. -/
def runGets (tierDir : List Char) (c : TierCache) :
    List (List Char × Bool) → TierCache
  | [] => c
  | (n, b) :: rest => runGets tierDir (cacheGet tierDir b c n).1 rest

/-! ### Interleaving model for two concurrent `get`s on one key

A `get` is two observable phases: the `exists()` check on the deterministic
local path (`thumb_path` at line 418-420, `wallpaper_path` at line 216-219)
and, on a miss, the network fetch (lines 423-428 and 223-225).  The
thumbnail-tier get stores the fetched file at that path (`image.save`, line
428); the full-tier preview get fetches **without** storing (only
`_apply_worker`, lines 280-287, writes the full file) — the `stores` flag
distinguishes the two.  Two caller threads run these phases in any
interleaving; there is no lock or single-flight table anywhere in
`main.py`. -/

/-- Program counter of one caller: has not checked yet, has observed a miss
and is about to fetch, finished via the hit path, finished via its own
fetch. -/
inductive FPc where
  | idle
  | willFetch
  | doneHit
  | doneFetch
  deriving DecidableEq

/-- Shared state of the race: whether the cache file exists, how many
network fetches have executed, each caller's program counter, and the local
path each caller has resolved (computed from the key before its check, as
at lines 418 and 216). -/
structure FlightState where
  stored : Bool
  fetches : Nat
  pc1 : FPc
  pc2 : FPc
  path1 : Option (List Char)
  path2 : Option (List Char)
  deriving DecidableEq

/-- One phase of one caller: check (hit or go to fetch), or fetch — which
marks the file stored only when this tier's get stores it. -/
def stepPc (stores : Bool) (pc : FPc) (stored : Bool) : FPc × Bool × Nat :=
  match pc with
  | .idle => if stored then (.doneHit, stored, 0) else (.willFetch, stored, 0)
  | .willFetch => (.doneFetch, stored || stores, 1)
  | .doneHit => (.doneHit, stored, 0)
  | .doneFetch => (.doneFetch, stored, 0)

/-- Advance one caller (`true` = caller 1) by one phase; the caller's
resolved local path is the deterministic `{tier-dir}/{fileName}`. -/
def flightStep (td name : List Char) (stores : Bool) (s : FlightState)
    (who : Bool) : FlightState :=
  if who then
    let r := stepPc stores s.pc1 s.stored
    ⟨r.2.1, s.fetches + r.2.2, r.1, s.pc2, some (cachePath td name), s.path2⟩
  else
    let r := stepPc stores s.pc2 s.stored
    ⟨r.2.1, s.fetches + r.2.2, s.pc1, r.1, s.path1, some (cachePath td name)⟩

/-- Run a schedule (the order in which the two threads take their steps). -/
def flightRun (td name : List Char) (stores : Bool) :
    FlightState → List Bool → FlightState
  | s, [] => s
  | s, w :: rest => flightRun td name stores (flightStep td name stores s w) rest

/-- Both callers start before the check, no cache file, no fetches yet,
no path resolved yet. -/
def flightStart : FlightState := ⟨false, 0, .idle, .idle, none, none⟩

def fetchMark (pc : FPc) : Nat := if pc = .doneFetch then 1 else 0

/-! ### Wallpaper dispatch (`WallpaperManager.set_wallpaper`, lines 33-81) -/

/-- The Linux desktop-environment command chosen at lines 56-74. -/
inductive LinuxCmd where
  | gnome
  | kde
  | xfce
  | generic
  deriving DecidableEq

/-- The if/elif chain at lines 56-74: the `DESKTOP_SESSION` value is
lowercased once, then matched by substring in priority order; the final
`else` is the generic `feh` X11 setter. -/
def linuxDispatch (desktop : List Char) : LinuxCmd :=
  let d := pyLower desktop
  if containsSub "gnome".toList d || containsSub "ubuntu".toList d then .gnome
  else if containsSub "kde".toList d || containsSub "plasma".toList d then .kde
  else if containsSub "xfce".toList d then .xfce
  else .generic

/-- Case-insensitive substring match, as the spec words it
("case-insensitive substring match"). -/
def ciContains (pat s : List Char) : Bool :=
  containsSub (pyLower pat) (pyLower s)

/-- Modelled from the spec (§4.4 step 3): the priority-ordered Linux
dispatch decision, written from the spec sentence rather than from the code,
for comparison with `linuxDispatch`. -/
def specLinuxDispatch (desktop : List Char) : LinuxCmd :=
  if ciContains "gnome".toList desktop || ciContains "ubuntu".toList desktop
    then .gnome
  else if ciContains "kde".toList desktop || ciContains "plasma".toList desktop
    then .kde
  else if ciContains "xfce".toList desktop then .xfce
  else .generic

/-- The platform calls `set_wallpaper` can issue. -/
inductive OsCall where
  | winApi
  | macScript
  | gnomeCmd
  | kdeCmd
  | xfceCmd
  | fehCmd
  deriving DecidableEq

/-- How one underlying call turns out.  `failReturn` is a failure signalled
only through the return value: `SystemParametersInfoW` returns 0 but raises
nothing.  The `subprocess.run(..., check=True)` calls raise on any failure,
so for them a failure is always `raised`. -/
inductive CallResult where
  | ok
  | raised
  | failReturn
  deriving DecidableEq

def callOf : LinuxCmd → OsCall
  | .gnome => .gnomeCmd
  | .kde => .kdeCmd
  | .xfce => .xfceCmd
  | .generic => .fehCmd

/-- `WallpaperManager.set_wallpaper` (lines 33-81).  `system` is
`platform.system()`, `desktop` is `DESKTOP_SESSION`, and `res` gives the
outcome of whichever underlying call is issued.  A `raised` outcome lands in
the `except` block (line 77) and returns `False`; on Windows the API's
return value is ignored, so `ok` and `failReturn` both return `True`; an
unrecognized operating system falls through to the final `return False`
(line 81). -/
def set_wallpaper (system desktop : List Char) (res : OsCall → CallResult) :
    Bool :=
  if system = "Windows".toList then
    match res .winApi with
    | .raised => false
    | _ => true
  else if system = "Darwin".toList then
    match res .macScript with
    | .ok => true
    | _ => false
  else if system = "Linux".toList then
    match res (callOf (linuxDispatch desktop)) with
    | .ok => true
    | _ => false
  else false

/-! ### Thumbnail resize (`image.thumbnail((250, 140), ...)`, line 427)

Modelled from the Pillow library's `Image.thumbnail` algorithm (the call is
into the external PIL dependency, not repository code): if the image already
fits in the box it is left untouched; otherwise the constrained dimension is
set to the box bound and the other is rounded to whichever of floor/ceil of
the exact aspect-preserving value is closer to the true aspect ratio, with a
minimum of 1.  Pillow computes with floats; the model uses exact rational
comparisons (cross-multiplied), which agree except on ties at float
precision — the claimed bounds hold for floor and ceil alike, so that
difference cannot affect the properties proved here. -/

def ceilDivN (a b : Nat) : Nat := (a + b - 1) / b

/-- Pillow `round_aspect` for the branch that recomputes the width `x` from
`x = y * aspect`:  pick the closer of floor/ceil of `y*w/h` to `w/h`
(`|w*y - n*h|` after clearing denominators; ties pick floor), then clamp to
at least 1. -/
def roundAspectW (w h y : Nat) : Nat :=
  let nf := y * w / h
  let nc := ceilDivN (y * w) h
  let kf := Nat.dist (w * y) (nf * h)
  let kc := Nat.dist (w * y) (nc * h)
  max (if kf ≤ kc then nf else nc) 1

/-- Pillow `round_aspect` for the branch that recomputes the height `y` from
`y = x / aspect`: the key is `0` when `n = 0`, else `|w/h - x/n|`; comparing
the keys of `nf` and `nc` cross-multiplies to `|w*nf - x*h| * nc ≤
|w*nc - x*h| * nf` (ties pick floor), then clamp to at least 1. -/
def roundAspectH (w h x : Nat) : Nat :=
  let nf := x * h / w
  let nc := ceilDivN (x * h) w
  let pick :=
    if nf = 0 then nf
    else if Nat.dist (w * nf) (x * h) * nc ≤ Nat.dist (w * nc) (x * h) * nf
      then nf else nc
  max pick 1

/-- Pillow `Image.thumbnail` size computation for target box `(tx, ty)`:
no-op when the image already fits, otherwise shrink the dominant dimension
to the box and round the other aspect-preservingly. -/
def pilThumbnail (w h tx ty : Nat) : Nat × Nat :=
  if tx ≥ w ∧ ty ≥ h then (w, h)
  else if tx * h ≥ w * ty then (roundAspectW w h ty, ty)
  else (tx, roundAspectH w h tx)

/-! ### Auxiliary definitions used by the statements below -/

/-- All items stored in the per-category map (the dict values, flattened). -/
def catItems (cats : List (List Char × List WallItem)) : List WallItem :=
  (cats.map Prod.snd).flatten

/-- Invariant of the two-caller race: the global fetch count is exactly the
number of callers that completed through their own fetch-and-store. -/
def flightInv (s : FlightState) : Prop :=
  s.fetches = fetchMark s.pc1 + fetchMark s.pc2

/-- Concrete old catalog for the refresh scenario: one wallpaper. -/
def c3Old : Catalog := buildCatalog [⟨"a/x.jpg".toList, 0⟩]

/-- Concrete new manifest for the refresh scenario: two other wallpapers. -/
def c3Files : List RawFile := [⟨"b/y.jpg".toList, 0⟩, ⟨"c/z.jpg".toList, 0⟩]

/-- A state is what the atomic-replace claim allows a reader to observe:
the complete old catalog or the complete new catalog. -/
def c3Observed (st : Catalog) : Bool :=
  decide (st = c3Old) || decide (st = buildCatalog c3Files)

/-- Outcome environment in which every issued platform call fails by
raising. -/
def allRaised : OsCall → CallResult := fun _ => .raised

/-- Characters other than a separator: `takeWhile (notSep sep)` is the
leading segment of a separator-delimited path. -/
def notSep (sep : Char) : Char → Bool := fun c => c ≠ sep

example : format_name ("sunset_4k.jpg".toList) = "Sunset".toList := by decide
example : format_name ("a.b.jpg".toList) = "A.B".toList := by decide
example : format_name ("A.B".toList) = "A".toList := by decide
example : pySplit '/' ("nature/sunset.jpg".toList) =
    ["nature".toList, "sunset.jpg".toList] := by decide
example : containsSub "gnome".toList "ubuntu-gnome-xorg".toList = true := by
  decide
example : processFile ⟨"abstract_meta.xml".toList, 0⟩ = none := by decide
example :
    processFile ⟨"nature/sunset_4k.jpg".toList, 7⟩ =
      some
        { name := "sunset_4k.jpg".toList
          category := "nature".toList
          downloadURL :=
            "https://archive.org/download/zwallpaper/nature/sunset_4k.jpg".toList
          path := "nature/sunset_4k.jpg".toList
          size := 7 } := by decide
example : loadWorker [⟨"abstract_meta.xml".toList, 0⟩] = .loadedCount 0 := by
  decide
example :
    (refreshTrace [⟨"b/y.jpg".toList, 0⟩, ⟨"c/z.jpg".toList, 0⟩]).length = 3 := by
  decide
example :
    (flightRun ("t".toList) ("a.jpg".toList) true flightStart
      [true, false, true, false]).fetches = 2 := by decide
example :
    flightRun ("t".toList) ("a.jpg".toList) true flightStart
        [true, true, false] =
      ⟨true, 1, .doneFetch, .doneHit, some (cachePath ("t".toList)
        ("a.jpg".toList)), some (cachePath ("t".toList) ("a.jpg".toList))⟩ := by
  decide
example :
    flightRun ("w".toList) ("a.jpg".toList) false flightStart
        [true, true, false, false] =
      ⟨false, 2, .doneFetch, .doneFetch, some (cachePath ("w".toList)
        ("a.jpg".toList)), some (cachePath ("w".toList) ("a.jpg".toList))⟩ := by
  decide
example : linuxDispatch "ubuntu".toList = .gnome := by decide
example : linuxDispatch "i3wm".toList = .generic := by decide
example : set_wallpaper "Haiku".toList [] (fun _ => .ok) = false := by decide
example : set_wallpaper "Windows".toList [] (fun _ => .failReturn) = true := by
  decide
example : pilThumbnail 1000 1000 250 140 = (140, 140) := by decide
example : pilThumbnail 200 100 250 140 = (200, 100) := by decide
example : pilThumbnail 2560 1080 250 140 = (250, 105) := by decide

/-! ### Helper lemmas: the ASCII case model -/

lemma map_fst_caseTable : caseTable.map Prod.fst = lowersList := by decide

lemma map_fst_swap_caseTable :
    (caseTable.map Prod.swap).map Prod.fst = uppersList := by decide

lemma lookup_none_of_not_mem (c : Char) :
    ∀ (t : List (Char × Char)), c ∉ t.map Prod.fst → List.lookup c t = none
  | [], _ => rfl
  | (k, v) :: rest, h => by
    simp only [List.map_cons, List.mem_cons, not_or] at h
    have hk : (c == k) = false := beq_eq_false_iff_ne.mpr h.1
    simp [List.lookup, hk, lookup_none_of_not_mem c rest h.2]

lemma toUpperA_of_not_lower {c : Char} (h : c ∉ lowersList) : toUpperA c = c := by
  unfold toUpperA
  rw [lookup_none_of_not_mem c caseTable (by rw [map_fst_caseTable]; exact h)]
  rfl

lemma toLowerA_of_not_upper {c : Char} (h : c ∉ uppersList) : toLowerA c = c := by
  unfold toLowerA
  rw [lookup_none_of_not_mem c (caseTable.map Prod.swap)
    (by rw [map_fst_swap_caseTable]; exact h)]
  rfl

lemma isCasedA_toUpperA (c : Char) : isCasedA (toUpperA c) = isCasedA c := by
  by_cases h : c ∈ lowersList
  · fin_cases h <;> decide
  · rw [toUpperA_of_not_lower h]

lemma isCasedA_toLowerA (c : Char) : isCasedA (toLowerA c) = isCasedA c := by
  by_cases h : c ∈ uppersList
  · fin_cases h <;> decide
  · rw [toLowerA_of_not_upper h]

lemma toUpperA_toUpperA (c : Char) : toUpperA (toUpperA c) = toUpperA c := by
  by_cases h : c ∈ lowersList
  · fin_cases h <;> decide
  · rw [toUpperA_of_not_lower h, toUpperA_of_not_lower h]

lemma toLowerA_toLowerA (c : Char) : toLowerA (toLowerA c) = toLowerA c := by
  by_cases h : c ∈ uppersList
  · fin_cases h <;> decide
  · rw [toLowerA_of_not_upper h, toLowerA_of_not_upper h]

lemma pyTitleAux_idem : ∀ (s : List Char) (b : Bool),
    pyTitleAux b (pyTitleAux b s) = pyTitleAux b s
  | [], _ => rfl
  | c :: rest, b => by
    by_cases hc : isCasedA c = true
    · have ho : isCasedA (if b then toLowerA c else toUpperA c) = true := by
        cases b <;> simp [isCasedA_toLowerA, isCasedA_toUpperA, hc]
      have hoo :
          (if b then toLowerA (if b then toLowerA c else toUpperA c)
            else toUpperA (if b then toLowerA c else toUpperA c)) =
            (if b then toLowerA c else toUpperA c) := by
        cases b <;> simp [toLowerA_toLowerA, toUpperA_toUpperA]
      simp only [pyTitleAux, hc, if_true, ho, hoo, pyTitleAux_idem rest true]
    · have hc' : isCasedA c = false := by simpa using hc
      simp only [pyTitleAux, hc', Bool.false_eq_true, if_false,
        pyTitleAux_idem rest false]

lemma not_mem_pyTitleAux {x : Char} (hx : isCasedA x = false) :
    ∀ (s : List Char) (b : Bool), x ∉ s → x ∉ pyTitleAux b s
  | [], _, _ => by simp [pyTitleAux]
  | c :: rest, b, h => by
    simp only [List.mem_cons, not_or] at h
    by_cases hc : isCasedA c = true
    · have ho : isCasedA (if b then toLowerA c else toUpperA c) = true := by
        cases b <;> simp [isCasedA_toLowerA, isCasedA_toUpperA, hc]
      simp only [pyTitleAux, hc, if_true, List.mem_cons, not_or]
      refine ⟨fun he => ?_, not_mem_pyTitleAux hx rest true h.2⟩
      rw [he, ho] at hx
      cases hx
    · have hc' : isCasedA c = false := by simpa using hc
      simp only [pyTitleAux, hc', Bool.false_eq_true, if_false, List.mem_cons,
        not_or]
      exact ⟨h.1, not_mem_pyTitleAux hx rest false h.2⟩

/-! ### Helper lemmas: `pyReplace` -/

lemma pyReplaceF_head_not_mem {c : Char} {pt rep : List Char} :
    ∀ (fuel : Nat) (s : List Char), c ∉ s → pyReplaceF (c :: pt) rep fuel s = s
  | fuel, [], _ => by cases fuel <;> rfl
  | 0, _ :: _, _ => rfl
  | fuel + 1, d :: rest, h => by
    simp only [List.mem_cons, not_or] at h
    have hpre : ((c :: pt).isPrefixOf (d :: rest)) = false := by
      simp [List.isPrefixOf, beq_eq_false_iff_ne.mpr h.1]
    rw [show pyReplaceF (c :: pt) rep (fuel + 1) (d :: rest) =
        d :: pyReplaceF (c :: pt) rep fuel rest from by simp [pyReplaceF, hpre],
      pyReplaceF_head_not_mem fuel rest h.2]

lemma pyReplace_head_not_mem {c : Char} {pt rep s : List Char} (h : c ∉ s) :
    pyReplace (c :: pt) rep s = s :=
  pyReplaceF_head_not_mem _ _ h

lemma mem_pyReplaceF_single {c r : Char} :
    ∀ (fuel : Nat) (s : List Char), s.length ≤ fuel → ∀ {x : Char},
      x ∈ pyReplaceF [c] [r] fuel s → (x ∈ s ∧ x ≠ c) ∨ x = r
  | fuel, [], _, x, hx => by cases fuel <;> simp [pyReplaceF] at hx
  | 0, d :: rest, hlen, x, hx => by simp at hlen
  | fuel + 1, d :: rest, hlen, x, hx => by
    have hlen' : rest.length ≤ fuel := by
      simpa using Nat.le_of_succ_le_succ hlen
    by_cases hdc : c = d
    · subst hdc
      have he : pyReplaceF [c] [r] (fuel + 1) (c :: rest) =
          r :: pyReplaceF [c] [r] fuel rest := by
        simp [pyReplaceF, List.isPrefixOf]
      rw [he] at hx
      rcases List.mem_cons.mp hx with h1 | h2
      · exact Or.inr h1
      · rcases mem_pyReplaceF_single fuel rest hlen' h2 with ⟨hm, hne⟩ | hr
        · exact Or.inl ⟨List.mem_cons_of_mem _ hm, hne⟩
        · exact Or.inr hr
    · have he : pyReplaceF [c] [r] (fuel + 1) (d :: rest) =
          d :: pyReplaceF [c] [r] fuel rest := by
        simp [pyReplaceF, List.isPrefixOf, beq_eq_false_iff_ne.mpr hdc]
      rw [he] at hx
      rcases List.mem_cons.mp hx with h1 | h2
      · exact Or.inl ⟨by simp [h1], by rw [h1]; exact fun e => hdc e.symm⟩
      · rcases mem_pyReplaceF_single fuel rest hlen' h2 with ⟨hm, hne⟩ | hr
        · exact Or.inl ⟨List.mem_cons_of_mem _ hm, hne⟩
        · exact Or.inr hr

lemma not_mem_pyReplace_single_self {c r : Char} (h : c ≠ r) (s : List Char) :
    c ∉ pyReplace [c] [r] s := by
  intro hx
  rcases mem_pyReplaceF_single _ _ le_rfl hx with ⟨_, hne⟩ | hr
  · exact hne rfl
  · exact h hr

lemma not_mem_pyReplace_single {x c r : Char} (hxr : x ≠ r) {s : List Char}
    (hxs : x ∉ s) : x ∉ pyReplace [c] [r] s := by
  intro hx
  rcases mem_pyReplaceF_single _ _ le_rfl hx with ⟨hm, _⟩ | hr
  · exact hxs hm
  · exact hxr hr

/-! ### Helper lemmas: `format_name` -/

lemma stripExt_of_not_mem {s : List Char} (h : '.' ∉ s) : stripExt s = s := by
  simp [stripExt, h]

lemma stripRes_of_not_mem {s : List Char} (h : '_' ∉ s) : stripRes s = s := by
  have hr : ∀ pt rep, pyReplace ('_' :: pt) rep s = s := fun pt rep =>
    pyReplace_head_not_mem h
  simp [stripRes, resTokens, List.foldl_cons, List.foldl_nil, hr]

lemma not_underscore_format_name (s : List Char) : '_' ∉ format_name s := by
  show '_' ∉ pyTitleAux false
    (pyReplace ['-'] [' '] (pyReplace ['_'] [' '] (stripRes (stripExt s))))
  exact not_mem_pyTitleAux (by decide) _ false
    (not_mem_pyReplace_single (by decide)
      (not_mem_pyReplace_single_self (by decide) _))

lemma not_hyphen_format_name (s : List Char) : '-' ∉ format_name s := by
  show '-' ∉ pyTitleAux false
    (pyReplace ['-'] [' '] (pyReplace ['_'] [' '] (stripRes (stripExt s))))
  exact not_mem_pyTitleAux (by decide) _ false
    (not_mem_pyReplace_single_self (by decide) _)

/-! ### Claim C4: displayName derivation idempotence -/

/-- C4 counterexample: the derivation is NOT idempotent for every filename.
For `"a.b.jpg"` the derived displayName is `"A.B"`; re-applying the
transform strips after the last remaining dot and yields `"A"`. -/
theorem c4_counterexample :
    format_name (format_name ("a.b.jpg".toList)) ≠
      format_name ("a.b.jpg".toList) := by decide

/-- C4 (amended): the displayName derivation is idempotent for every
filename whose derived displayName contains no dot (equivalently, whose
stem keeps no dot after the extension is stripped); a remaining dot defeats
idempotence because the re-derivation strips everything after it. -/
theorem c4_theorem (s : List Char) (h : '.' ∉ format_name s) :
    format_name (format_name s) = format_name s := by
  have h2 : stripRes (format_name s) = format_name s :=
    stripRes_of_not_mem (not_underscore_format_name s)
  have h3 : pyReplace ['_'] [' '] (format_name s) = format_name s :=
    pyReplace_head_not_mem (not_underscore_format_name s)
  have h4 : pyReplace ['-'] [' '] (format_name s) = format_name s :=
    pyReplace_head_not_mem (not_hyphen_format_name s)
  have key : pyTitle (format_name s) = format_name s := by
    show pyTitleAux false (pyTitleAux false
        (pyReplace ['-'] [' ']
          (pyReplace ['_'] [' '] (stripRes (stripExt s))))) =
      pyTitleAux false
        (pyReplace ['-'] [' '] (pyReplace ['_'] [' '] (stripRes (stripExt s))))
    exact pyTitleAux_idem _ false
  show pyTitle (pyReplace ['-'] [' ']
      (pyReplace ['_'] [' '] (stripRes (stripExt (format_name s))))) =
    format_name s
  rw [stripExt_of_not_mem h, h2, h3, h4, key]

/-- C4 witness: a concrete filename whose displayName is dot-free, on which
the amended idempotence theorem applies. -/
theorem c4_witness :
    '.' ∉ format_name ("forest_4k.jpg".toList) ∧
      format_name (format_name ("forest_4k.jpg".toList)) =
        format_name ("forest_4k.jpg".toList) :=
  ⟨by decide, c4_theorem _ (by decide)⟩

/-! ### Helper lemmas: `takeWhile` and `pySplit` -/

lemma notSep_self (sep : Char) : notSep sep sep = false := by simp [notSep]

lemma notSep_of_ne {c sep : Char} (h : c ≠ sep) : notSep sep c = true := by
  simp [notSep, h]

lemma takeWhile_all {p : Char → Bool} :
    ∀ {l : List Char}, (∀ x ∈ l, p x = true) → l.takeWhile p = l
  | [], _ => rfl
  | a :: l, h => by
    have ha := h a (List.mem_cons_self a l)
    simp [List.takeWhile_cons, ha,
      takeWhile_all (fun x hx => h x (List.mem_cons_of_mem a hx))]

lemma takeWhile_append_stop {sep : Char} :
    ∀ (l l' : List Char), sep ∈ l →
      (l ++ l').takeWhile (notSep sep) = l.takeWhile (notSep sep)
  | [], _, h => absurd h (by simp)
  | a :: l, l', h => by
    by_cases ha : a = sep
    · subst ha
      simp [List.takeWhile_cons, notSep_self]
    · have h' : sep ∈ l := by
        rcases List.mem_cons.mp h with he | hm
        · exact absurd he.symm ha
        · exact hm
      simp [List.takeWhile_cons, notSep_of_ne ha,
        takeWhile_append_stop l l' h']

lemma takeWhile_append_last {p : Char → Bool} {c : Char} (hc : p c = false) :
    ∀ (l : List Char), (l ++ [c]).takeWhile p = l.takeWhile p
  | [] => by simp [List.takeWhile_cons, hc]
  | a :: l => by
    by_cases pa : p a = true
    · simp [List.takeWhile_cons, pa, takeWhile_append_last hc l]
    · have pa' : p a = false := by simpa using pa
      simp [List.takeWhile_cons, pa']

lemma pySplit_ne_nil (sep : Char) : ∀ (s : List Char), pySplit sep s ≠ []
  | [] => by simp [pySplit]
  | c :: rest => by
    by_cases hc : c = sep
    · simp [pySplit, hc]
    · cases hps : pySplit sep rest with
      | nil => exact absurd hps (pySplit_ne_nil sep rest)
      | cons g gs => simp [pySplit, hc, hps]

lemma pySplit_headD : ∀ (sep : Char) (s : List Char),
    (pySplit sep s).headD [] = s.takeWhile (notSep sep)
  | _, [] => rfl
  | sep, c :: rest => by
    by_cases hc : c = sep
    · subst hc
      simp [pySplit, List.takeWhile_cons, notSep_self]
    · cases hps : pySplit sep rest with
      | nil => exact absurd hps (pySplit_ne_nil sep rest)
      | cons g gs =>
        have ih := pySplit_headD sep rest
        rw [hps] at ih
        rw [show pySplit sep (c :: rest) = (c :: g) :: gs from by
            simp [pySplit, hc, hps]]
        rw [show ((c :: g) :: gs).headD [] = c :: g from rfl]
        rw [show (g :: gs).headD [] = g from rfl] at ih
        rw [List.takeWhile_cons, notSep_of_ne hc, if_pos rfl, ← ih]

lemma one_lt_pySplit_length_iff : ∀ (sep : Char) (s : List Char),
    1 < (pySplit sep s).length ↔ sep ∈ s
  | sep, [] => by simp [pySplit]
  | sep, c :: rest => by
    by_cases hc : c = sep
    · subst hc
      have hpos : 0 < (pySplit c rest).length :=
        List.length_pos.mpr (pySplit_ne_nil c rest)
      simp [pySplit]
      omega
    · cases hps : pySplit sep rest with
      | nil => exact absurd hps (pySplit_ne_nil sep rest)
      | cons g gs =>
        have ih := one_lt_pySplit_length_iff sep rest
        rw [hps] at ih
        have hcs : ¬ sep = c := fun e => hc e.symm
        rw [show pySplit sep (c :: rest) = (c :: g) :: gs from by
            simp [pySplit, hc, hps]]
        simp only [List.length_cons] at ih ⊢
        rw [ih, List.mem_cons]
        simp [hcs]

lemma pySplit_of_not_mem : ∀ (sep : Char) (s : List Char),
    sep ∉ s → pySplit sep s = [s]
  | _, [], _ => rfl
  | sep, c :: rest, h => by
    simp only [List.mem_cons, not_or] at h
    have hc : ¬ c = sep := fun e => h.1 e.symm
    simp [pySplit, hc, pySplit_of_not_mem sep rest h.2]

lemma getLastD_ne_nil {α : Type} {l : List α} (h : l ≠ []) (a b : α) :
    l.getLastD a = l.getLastD b := by
  cases l with
  | nil => exact absurd rfl h
  | cons x xs => rfl

lemma pySplit_getLastD : ∀ (sep : Char) (s : List Char),
    (pySplit sep s).getLastD [] =
      (s.reverse.takeWhile (notSep sep)).reverse
  | _, [] => rfl
  | sep, c :: rest => by
    have ih := pySplit_getLastD sep rest
    by_cases hc : c = sep
    · subst hc
      rw [show pySplit c (c :: rest) = [] :: pySplit c rest from by
          simp [pySplit],
        List.getLastD_cons,
        ih, List.reverse_cons, takeWhile_append_last (notSep_self c)]
    · by_cases hmem : sep ∈ rest
      · cases hps : pySplit sep rest with
        | nil => exact absurd hps (pySplit_ne_nil sep rest)
        | cons g gs =>
          have hgs : gs ≠ [] := by
            have hlen := (one_lt_pySplit_length_iff sep rest).mpr hmem
            rw [hps] at hlen
            intro e
            rw [e] at hlen
            simp at hlen
          rw [show pySplit sep (c :: rest) = (c :: g) :: gs from by
              simp [pySplit, hc, hps],
            List.getLastD_cons, getLastD_ne_nil hgs (c :: g) g]
          rw [hps, List.getLastD_cons] at ih
          rw [ih, List.reverse_cons,
            takeWhile_append_stop _ _ (List.mem_reverse.mpr hmem)]
      · rw [show pySplit sep (c :: rest) = [c :: rest] from by
            simp [pySplit, hc, pySplit_of_not_mem sep rest hmem]]
        have hall : ∀ x ∈ rest.reverse ++ [c], notSep sep x = true := by
          intro x hx
          rcases List.mem_append.mp hx with hm | hm
          · have hxr : x ∈ rest := List.mem_reverse.mp hm
            exact notSep_of_ne (fun e => hmem (e ▸ hxr))
          · have hxc : x = c := List.mem_singleton.mp hm
            exact notSep_of_ne (by rw [hxc]; exact hc)
        rw [List.reverse_cons, takeWhile_all hall, List.reverse_append,
          List.reverse_reverse]
        rfl

/-! ### Claim C5: category / fileName derivation from the path -/

/-- C5: for every path, the derived category is the first `/`-separated
segment (the characters before the first separator) and the derived fileName
is the last segment (the characters after the last separator) when the path
contains a separator; otherwise the category is the sentinel
`"uncategorized"` and the fileName is the whole path.  On the concrete path
`"nature/sunset_4k.jpg"` this gives category `nature`, fileName
`sunset_4k.jpg` and displayName `Sunset`. -/
theorem c5_theorem :
    (∀ p : List Char, '/' ∈ p →
        categoryOf p = p.takeWhile (notSep '/') ∧
          fileNameOf p = (p.reverse.takeWhile (notSep '/')).reverse) ∧
      (∀ p : List Char, '/' ∉ p →
        categoryOf p = "uncategorized".toList ∧ fileNameOf p = p) ∧
      (categoryOf ("nature/sunset_4k.jpg".toList) = "nature".toList ∧
        fileNameOf ("nature/sunset_4k.jpg".toList) = "sunset_4k.jpg".toList ∧
        format_name (fileNameOf ("nature/sunset_4k.jpg".toList)) =
          "Sunset".toList) := by
  refine ⟨fun p hp => ?_, fun p hp => ?_, by decide⟩
  · have hl : 1 < (pySplit '/' p).length :=
      (one_lt_pySplit_length_iff '/' p).mpr hp
    constructor
    · show (if 1 < (pySplit '/' p).length then (pySplit '/' p).headD []
        else "uncategorized".toList) = p.takeWhile (notSep '/')
      rw [if_pos hl, pySplit_headD]
    · show (if 1 < (pySplit '/' p).length then (pySplit '/' p).getLastD []
        else p) = (p.reverse.takeWhile (notSep '/')).reverse
      rw [if_pos hl, pySplit_getLastD]
  · have hl : ¬ 1 < (pySplit '/' p).length := fun h =>
      hp ((one_lt_pySplit_length_iff '/' p).mp h)
    constructor
    · show (if 1 < (pySplit '/' p).length then (pySplit '/' p).headD []
        else "uncategorized".toList) = "uncategorized".toList
      rw [if_neg hl]
    · show (if 1 < (pySplit '/' p).length then (pySplit '/' p).getLastD []
        else p) = p
      rw [if_neg hl]

/-- C5 witness: the segment characterisation applied at a two-separator path
and at a separator-free path. -/
theorem c5_witness :
    ('/' ∈ "a/b/c.png".toList ∧
      categoryOf ("a/b/c.png".toList) =
        ("a/b/c.png".toList).takeWhile (notSep '/') ∧
      fileNameOf ("a/b/c.png".toList) =
        (("a/b/c.png".toList).reverse.takeWhile (notSep '/')).reverse) ∧
    ('/' ∉ "plain.jpg".toList ∧
      categoryOf ("plain.jpg".toList) = "uncategorized".toList ∧
      fileNameOf ("plain.jpg".toList) = "plain.jpg".toList) :=
  ⟨⟨by decide, (c5_theorem.1 _ (by decide)).1, (c5_theorem.1 _ (by decide)).2⟩,
    ⟨by decide, (c5_theorem.2.1 _ (by decide)).1,
      (c5_theorem.2.1 _ (by decide)).2⟩⟩

/-! ### Helper lemmas: catalog membership -/

lemma mem_catItems_addCat {x it : WallItem} :
    ∀ (cats : List (List Char × List WallItem)),
      x ∈ catItems (addCat it cats) → x ∈ catItems cats ∨ x = it
  | [] => by
    intro h
    simp [catItems, addCat] at h
    exact Or.inr h
  | (k, v) :: rest => by
    intro h
    have hg : catItems ((k, v) :: rest) = v ++ catItems rest := by
      simp [catItems]
    by_cases hk : k = it.category
    · have he : addCat it ((k, v) :: rest) = (k, v ++ [it]) :: rest := by
        simp [addCat, hk]
      have hc : catItems ((k, v ++ [it]) :: rest) =
          (v ++ [it]) ++ catItems rest := by
        simp [catItems]
      rw [he, hc] at h
      rw [hg]
      rcases List.mem_append.mp h with h | h
      · rcases List.mem_append.mp h with h | h
        · exact Or.inl (List.mem_append.mpr (Or.inl h))
        · exact Or.inr (List.mem_singleton.mp h)
      · exact Or.inl (List.mem_append.mpr (Or.inr h))
    · have he : addCat it ((k, v) :: rest) = (k, v) :: addCat it rest := by
        simp [addCat, hk]
      have hc : catItems ((k, v) :: addCat it rest) =
          v ++ catItems (addCat it rest) := by
        simp [catItems]
      rw [he, hc] at h
      rw [hg]
      rcases List.mem_append.mp h with h | h
      · exact Or.inl (List.mem_append.mpr (Or.inl h))
      · rcases mem_catItems_addCat rest h with h' | h'
        · exact Or.inl (List.mem_append.mpr (Or.inr h'))
        · exact Or.inr h'

lemma processFile_eq_some {f : RawFile} {it : WallItem}
    (h : processFile f = some it) :
    it.path = f.name ∧ it.category = categoryOf f.name ∧
      it.name = fileNameOf f.name ∧ hasImageExt f.name = true ∧
      isMetaFile f.name = false ∧
      containsSub ("thumb".toList) (pyLower (categoryOf f.name)) = false ∧
      containsSub ("thumb".toList) (pyLower (fileNameOf f.name)) = false := by
  simp only [processFile] at h
  by_cases h1 : hasImageExt f.name = true
  · rw [if_neg (by simp [h1])] at h
    by_cases h2 : isMetaFile f.name = true
    · rw [if_pos h2] at h
      cases h
    · have h2' : isMetaFile f.name = false := by simpa using h2
      rw [if_neg (by simp [h2'])] at h
      by_cases h3 : (containsSub ("thumb".toList) (pyLower (categoryOf f.name))
          || containsSub ("thumb".toList) (pyLower (fileNameOf f.name))) = true
      · rw [if_pos h3] at h
        cases h
      · have h3' := Bool.or_eq_false_iff.mp (by simpa using h3)
        rw [if_neg h3] at h
        have hit := (Option.some.injEq _ _).mp h
        subst hit
        exact ⟨rfl, rfl, rfl, h1, h2', h3'.1, h3'.2⟩
  · rw [if_pos (by simpa using h1)] at h
    cases h

lemma mem_allItems_foldl :
    ∀ (files : List RawFile) (st : Catalog) (it : WallItem),
      it ∈ (files.foldl stepFile st).allItems →
        it ∈ st.allItems ∨ ∃ f, f ∈ files ∧ processFile f = some it
  | [], _, _, h => Or.inl h
  | f :: fs, st, it, h => by
    rcases mem_allItems_foldl fs (stepFile st f) it h with h' | ⟨g, hg, hgp⟩
    · unfold stepFile at h'
      cases hpf : processFile f with
      | none =>
        rw [hpf] at h'
        exact Or.inl h'
      | some j =>
        rw [hpf] at h'
        simp only [List.mem_append, List.mem_singleton] at h'
        rcases h' with h1 | h2
        · exact Or.inl h1
        · exact Or.inr ⟨f, List.mem_cons_self f fs, by rw [hpf, h2]⟩
    · exact Or.inr ⟨g, List.mem_cons_of_mem f hg, hgp⟩

lemma mem_catItems_foldl :
    ∀ (files : List RawFile) (st : Catalog) (it : WallItem),
      it ∈ catItems (files.foldl stepFile st).cats →
        it ∈ catItems st.cats ∨ ∃ f, f ∈ files ∧ processFile f = some it
  | [], _, _, h => Or.inl h
  | f :: fs, st, it, h => by
    rcases mem_catItems_foldl fs (stepFile st f) it h with h' | ⟨g, hg, hgp⟩
    · unfold stepFile at h'
      cases hpf : processFile f with
      | none =>
        rw [hpf] at h'
        exact Or.inl h'
      | some j =>
        rw [hpf] at h'
        rcases mem_catItems_addCat st.cats h' with h1 | h2
        · exact Or.inl h1
        · exact Or.inr ⟨f, List.mem_cons_self f fs, by rw [hpf, h2]⟩
    · exact Or.inr ⟨g, List.mem_cons_of_mem f hg, hgp⟩

/-! ### Claim C6: filter rules -/

/-- C6: every item that reaches the built catalog (the flat list or any
per-category list) comes from a manifest path with an allowed image
extension (checked case-insensitively), not carrying an Archive-metadata
suffix, and with no `"thumb"` substring in its lowercased category segment
or filename; in particular the manifest entry `"abstract_meta.xml"` is
excluded and builds the empty catalog. -/
theorem c6_theorem :
    (∀ (files : List RawFile) (it : WallItem),
        (it ∈ (buildCatalog files).allItems ∨
          it ∈ catItems (buildCatalog files).cats) →
        hasImageExt it.path = true ∧ isMetaFile it.path = false ∧
          containsSub ("thumb".toList) (pyLower it.category) = false ∧
          containsSub ("thumb".toList) (pyLower it.name) = false) ∧
      buildCatalog [⟨"abstract_meta.xml".toList, 0⟩] = emptyCatalog := by
  refine ⟨fun files it hmem => ?_, by decide⟩
  have hex : ∃ f, f ∈ files ∧ processFile f = some it := by
    rcases hmem with h | h
    · rcases mem_allItems_foldl files emptyCatalog it h with h' | h'
      · cases h'
      · exact h'
    · rcases mem_catItems_foldl files emptyCatalog it h with h' | h'
      · cases h'
      · exact h'
  rcases hex with ⟨f, _, hf⟩
  rcases processFile_eq_some hf with ⟨hp, hc, hn, h1, h2, h3, h4⟩
  rw [hp, hc, hn]
  exact ⟨h1, h2, h3, h4⟩

/-- C6 witness: the filter guarantee applied to the item built from a
concrete one-entry manifest. -/
theorem c6_witness :
    (processFile ⟨"nature/sunset_4k.jpg".toList, 7⟩).getD
        ⟨[], [], [], [], 0⟩ ∈
      (buildCatalog [⟨"nature/sunset_4k.jpg".toList, 7⟩]).allItems ∧
    hasImageExt ((processFile ⟨"nature/sunset_4k.jpg".toList, 7⟩).getD
        ⟨[], [], [], [], 0⟩).path = true :=
  ⟨by decide,
    (c6_theorem.1 [⟨"nature/sunset_4k.jpg".toList, 7⟩] _
      (Or.inl (by decide))).1⟩

/-! ### Claim C2: zero qualifying entries -/

lemma foldl_all_skipped :
    ∀ (files : List RawFile) (st : Catalog),
      (∀ f ∈ files, processFile f = none) → files.foldl stepFile st = st
  | [], _, _ => rfl
  | f :: fs, st, h => by
    have h0 : processFile f = none := h f (List.mem_cons_self f fs)
    have hstep : stepFile st f = st := by
      unfold stepFile
      rw [h0]
    rw [List.foldl_cons, hstep,
      foldl_all_skipped fs st (fun g hg => h g (List.mem_cons_of_mem f hg))]

/-- C2 counterexample: a manifest whose single entry fails the filters is
non-empty, so the `ValueError` guard does not fire; `loadWorker` reports the
ordinary success status with a count of zero instead of a
`NotFoundError`-class message. -/
theorem c2_counterexample :
    loadWorker [⟨"abstract_meta.xml".toList, 0⟩] = .loadedCount 0 ∧
      loadWorker [⟨"abstract_meta.xml".toList, 0⟩] ≠ .errorMsg noFilesMsg := by
  decide

/-- C2 (amended): only an empty manifest file list is reported as the
NotFound-style error; a non-empty manifest whose entries all fail the filter
rules is reported as a successful load of zero wallpapers. -/
theorem c2_theorem (files : List RawFile) (hne : files ≠ [])
    (hall : ∀ f ∈ files, processFile f = none) :
    loadWorker files = .loadedCount 0 := by
  unfold loadWorker
  rw [if_neg hne]
  unfold buildCatalog
  rw [foldl_all_skipped files emptyCatalog hall]
  rfl

/-- C2 witness: the amended statement applied to a concrete one-entry
manifest that the filters reject. -/
theorem c2_witness :
    ([⟨"notes.txt".toList, 3⟩] : List RawFile) ≠ [] ∧
      loadWorker [⟨"notes.txt".toList, 3⟩] = .loadedCount 0 :=
  ⟨by decide, c2_theorem _ (by decide) (by decide)⟩

/-! ### Claim C3: catalog refresh -/

lemma scanl_getLast? {α β : Type} (f : β → α → β) :
    ∀ (l : List α) (b : β),
      (List.scanl f b l).getLast? = some (l.foldl f b)
  | [], b => by simp [List.scanl_nil]
  | a :: l, b => by
    rw [List.scanl_cons, List.foldl_cons]
    have hs := scanl_getLast? f l (f b a)
    cases hl : List.scanl f (f b a) l with
    | nil =>
      have : (List.scanl f (f b a) l).length = l.length + 1 :=
        List.length_scanl _ _
      rw [hl] at this
      simp at this
    | cons x xs =>
      rw [hl] at hs
      rw [List.singleton_append, List.getLast?_cons_cons]
      exact hs

/-- C3 counterexample: with a one-item old catalog and a two-item new
manifest, the trace of states a reader can observe during refresh contains
states (the cleared catalog and the half-populated one-item catalog) that
are neither the complete old catalog nor the complete new one. -/
theorem c3_counterexample :
    (refreshTrace c3Files).all c3Observed = false := by decide

/-- C3 (amended): refresh is not an atomic replace — `refresh_wallpapers`
clears the live category map and item list in place and the worker loop
re-appends entries one at a time into the same shared structures, so a
reader can observe the cleared catalog and every partially-populated
intermediate state; the observable trace starts at the cleared (empty)
catalog and its final state is exactly the catalog rebuilt from the new
manifest. -/
theorem c3_theorem (files : List RawFile) :
    (refreshTrace files).head? = some emptyCatalog ∧
      (refreshTrace files).getLast? = some (buildCatalog files) := by
  constructor
  · cases files with
    | nil => rfl
    | cons f fs => rfl
  · exact scanl_getLast? stepFile files emptyCatalog

/-! ### Claim C1: concurrent fetches for one key -/

lemma flightStep_inv {td name : List Char} {stores : Bool} {s : FlightState}
    (w : Bool) (h : flightInv s) : flightInv (flightStep td name stores s w) := by
  rcases s with ⟨st, n, p1, p2, q1, q2⟩
  cases w <;> cases p1 <;> cases p2 <;> cases st <;>
    simp [flightInv, flightStep, stepPc, fetchMark] at h ⊢ <;> omega

lemma flightRun_inv {td name : List Char} {stores : Bool} :
    ∀ (sched : List Bool) (s : FlightState),
      flightInv s → flightInv (flightRun td name stores s sched)
  | [], _, h => h
  | w :: rest, _, h => flightRun_inv rest _ (flightStep_inv w h)

lemma flightStep_path {td name : List Char} {stores : Bool} {s : FlightState}
    (w : Bool)
    (h : (s.path1 = none ∨ s.path1 = some (cachePath td name)) ∧
      (s.path2 = none ∨ s.path2 = some (cachePath td name))) :
    ((flightStep td name stores s w).path1 = none ∨
      (flightStep td name stores s w).path1 = some (cachePath td name)) ∧
    ((flightStep td name stores s w).path2 = none ∨
      (flightStep td name stores s w).path2 = some (cachePath td name)) := by
  cases w <;> simp [flightStep] <;> tauto

lemma flightRun_path {td name : List Char} {stores : Bool} :
    ∀ (sched : List Bool) (s : FlightState),
      ((s.path1 = none ∨ s.path1 = some (cachePath td name)) ∧
        (s.path2 = none ∨ s.path2 = some (cachePath td name))) →
      ((flightRun td name stores s sched).path1 = none ∨
        (flightRun td name stores s sched).path1 =
          some (cachePath td name)) ∧
      ((flightRun td name stores s sched).path2 = none ∨
        (flightRun td name stores s sched).path2 =
          some (cachePath td name))
  | [], _, h => h
  | w :: rest, _, h => flightRun_path rest _ (flightStep_path w h)

/-- C1 counterexample: on the thumbnail tier (the storing get), the
schedule in which both callers pass the `exists()` check before either
stores (caller 1 checks, caller 2 checks, caller 1 fetches and stores,
caller 2 fetches and stores) ends with both callers completed, the same
resolved local path, and two underlying network fetches, not exactly
one. -/
theorem c1_counterexample :
    flightRun ("thumbnails".toList) ("sunset_4k.jpg".toList) true flightStart
        [true, false, true, false] =
      ⟨true, 2, .doneFetch, .doneFetch,
        some (cachePath ("thumbnails".toList) ("sunset_4k.jpg".toList)),
        some (cachePath ("thumbnails".toList) ("sunset_4k.jpg".toList))⟩ := by
  decide

/-- C1 (amended): there is no single-flight mechanism on either tier — each
caller that observes a miss at its `exists()` check performs its own fetch,
so for every tier (storing thumbnail get or non-storing full-tier preview
get) and every schedule the total fetch count equals the number of callers
that completed through their own fetch (one or two; two whenever both
checks precede either store); every path a caller resolves is the same
deterministic `{tier-dir}/{fileName}`, so two completed callers always
resolve the same local path.  On the storing thumbnail tier, sequential
calls give one fetch with the second observing the hit path; on the
non-storing full-tier preview get, even sequential calls fetch twice. -/
theorem c1_theorem :
    (∀ (td name : List Char) (stores : Bool) (sched : List Bool),
        (flightRun td name stores flightStart sched).fetches =
          fetchMark (flightRun td name stores flightStart sched).pc1 +
            fetchMark (flightRun td name stores flightStart sched).pc2) ∧
      (∀ (td name : List Char) (stores : Bool) (sched : List Bool),
        ((flightRun td name stores flightStart sched).path1 = none ∨
          (flightRun td name stores flightStart sched).path1 =
            some (cachePath td name)) ∧
        ((flightRun td name stores flightStart sched).path2 = none ∨
          (flightRun td name stores flightStart sched).path2 =
            some (cachePath td name))) ∧
      flightRun ("thumbnails".toList) ("sunset_4k.jpg".toList) true
          flightStart [true, true, false] =
        ⟨true, 1, .doneFetch, .doneHit,
          some (cachePath ("thumbnails".toList) ("sunset_4k.jpg".toList)),
          some (cachePath ("thumbnails".toList) ("sunset_4k.jpg".toList))⟩ ∧
      flightRun ("wallpapers".toList) ("sunset_4k.jpg".toList) false
          flightStart [true, true, false, false] =
        ⟨false, 2, .doneFetch, .doneFetch,
          some (cachePath ("wallpapers".toList) ("sunset_4k.jpg".toList)),
          some (cachePath ("wallpapers".toList) ("sunset_4k.jpg".toList))⟩ :=
  ⟨fun _ _ _ sched => flightRun_inv sched flightStart rfl,
    fun _ _ _ sched =>
      flightRun_path sched flightStart ⟨Or.inl rfl, Or.inl rfl⟩,
    by decide, by decide⟩

/-! ### Claim C8: cache hits after a stored entry -/

lemma mem_cacheGet_stored {x td n : List Char} {b : Bool} {c : TierCache}
    (h : x ∈ c.stored) : x ∈ ((cacheGet td b c n).1).stored := by
  unfold cacheGet
  split_ifs with h1 h2
  · exact h
  · exact List.mem_cons_of_mem _ h
  · exact h

lemma mem_runGets {x td : List Char} :
    ∀ (ops : List (List Char × Bool)) (c : TierCache), x ∈ c.stored →
      x ∈ (runGets td c ops).stored
  | [], _, h => h
  | (_, _) :: rest, _, h => mem_runGets rest _ (mem_cacheGet_stored h)

lemma cacheGet_hit {td n : List Char} {b : Bool} {c : TierCache}
    (h : n ∈ c.stored) : cacheGet td b c n = (c, cachePath td n, 0) := by
  unfold cacheGet
  rw [if_pos h]

/-- C8: after a storing `get` for a key succeeds (writing
`{tier-dir}/{fileName}`), every later `get` for that key — storing or not,
and regardless of any interleaved `get`s for other keys — takes the hit
path: it leaves the cache unchanged, returns the same deterministic path,
and performs zero network fetches. -/
theorem c8_theorem (td : List Char) (c : TierCache) (name : List Char)
    (ops : List (List Char × Bool)) (b : Bool) :
    cacheGet td b (runGets td (cacheGet td true c name).1 ops) name =
      (runGets td (cacheGet td true c name).1 ops, cachePath td name, 0) := by
  apply cacheGet_hit
  apply mem_runGets
  unfold cacheGet
  split_ifs with h1 h2
  · exact h1
  · exact List.mem_cons_self _ _
  · exact absurd rfl h2

/-! ### Claim C10: set_wallpaper error behaviour -/

/-- C10 counterexample: on Windows a failing platform call does not yield
`False` — `SystemParametersInfoW`'s zero return value is ignored, so
`set_wallpaper` still returns `True`. -/
theorem c10_counterexample :
    set_wallpaper ("Windows".toList) [] (fun _ => .failReturn) = true := by
  decide

/-- C10 (amended): `set_wallpaper` always returns a boolean and never
propagates an exception: on an operating system other than Windows, macOS
and Linux it returns `False`; a macOS or Linux command failure (which
raises, `check=True`) returns `False`; on Windows the API's return value is
ignored, so the call returns `True` unless the call itself raises. -/
theorem c10_theorem (system desktop : List Char) (res : OsCall → CallResult) :
    (system ≠ "Windows".toList → system ≠ "Darwin".toList →
      system ≠ "Linux".toList → set_wallpaper system desktop res = false) ∧
    (res .macScript ≠ .ok →
      set_wallpaper ("Darwin".toList) desktop res = false) ∧
    (res (callOf (linuxDispatch desktop)) ≠ .ok →
      set_wallpaper ("Linux".toList) desktop res = false) ∧
    (set_wallpaper ("Windows".toList) desktop res = true ↔
      res .winApi ≠ .raised) := by
  refine ⟨fun h1 h2 h3 => ?_, fun hm => ?_, fun hl => ?_, ?_⟩
  · unfold set_wallpaper
    rw [if_neg h1, if_neg h2, if_neg h3]
  · unfold set_wallpaper
    rw [if_neg (by decide), if_pos rfl]
    cases hr : res .macScript
    · exact absurd hr hm
    · rfl
    · rfl
  · unfold set_wallpaper
    rw [if_neg (by decide), if_neg (by decide), if_pos rfl]
    cases hr : res (callOf (linuxDispatch desktop))
    · exact absurd hr hl
    · rfl
    · rfl
  · unfold set_wallpaper
    rw [if_pos rfl]
    cases hr : res .winApi <;> decide

/-- C10 witness: the amended error behaviour at concrete inputs — an
unknown operating system, and macOS/Linux environments whose commands
fail by raising. -/
theorem c10_witness :
    set_wallpaper ("FreeBSD".toList) ("kde".toList) allRaised = false ∧
      set_wallpaper ("Darwin".toList) ("kde".toList) allRaised = false ∧
      set_wallpaper ("Linux".toList) ("kde".toList) allRaised = false ∧
      (set_wallpaper ("Windows".toList) ("kde".toList) allRaised = true ↔
        allRaised .winApi ≠ .raised) :=
  ⟨(c10_theorem ("FreeBSD".toList) ("kde".toList) allRaised).1
      (by decide) (by decide) (by decide),
    (c10_theorem ("Darwin".toList) ("kde".toList) allRaised).2.1 (by decide),
    (c10_theorem ("Linux".toList) ("kde".toList) allRaised).2.2.1 (by decide),
    (c10_theorem ("Windows".toList) ("kde".toList) allRaised).2.2.2⟩

/-! ### Claim C7: Linux desktop dispatch -/

/-- C7: the code's Linux dispatch equals the spec's priority-ordered
case-insensitive decision procedure, and a desktop-session string matching
none of the recognized substrings selects the generic X11 setter command —
the dispatch is total and never raises an unsupported-platform error. -/
theorem c7_theorem :
    (∀ d : List Char, linuxDispatch d = specLinuxDispatch d) ∧
      (∀ d : List Char,
        ciContains ("gnome".toList) d = false →
        ciContains ("ubuntu".toList) d = false →
        ciContains ("kde".toList) d = false →
        ciContains ("plasma".toList) d = false →
        ciContains ("xfce".toList) d = false →
        linuxDispatch d = .generic) := by
  have heq : ∀ d : List Char, linuxDispatch d = specLinuxDispatch d :=
    fun d => rfl
  refine ⟨heq, fun d h1 h2 h3 h4 h5 => ?_⟩
  rw [heq d]
  unfold specLinuxDispatch
  rw [h1, h2, h3, h4, h5]
  rfl

/-- C7 witness: the refinement and the generic fallback at a concrete
unrecognized session string. -/
theorem c7_witness :
    linuxDispatch ("i3wm".toList) = specLinuxDispatch ("i3wm".toList) ∧
      linuxDispatch ("i3wm".toList) = .generic :=
  ⟨c7_theorem.1 _,
    c7_theorem.2 _ (by decide) (by decide) (by decide) (by decide)
      (by decide)⟩

/-! ### Helper lemmas: division bounds for the thumbnail resize -/

lemma lt_div_mul_add {a b : Nat} (hb : 0 < b) : a < a / b * b + b := by
  conv_lhs => rw [← Nat.div_add_mod a b]
  rw [Nat.mul_comm]
  exact Nat.add_lt_add_left (Nat.mod_lt _ hb) _

lemma le_ceilDivN_mul {a b : Nat} (hb : 0 < b) : a ≤ ceilDivN a b * b := by
  unfold ceilDivN
  have h2 := lt_div_mul_add (a := a + b - 1) hb
  generalize hE : (a + b - 1) / b * b = E at h2 ⊢
  omega

lemma ceilDivN_mul_lt {a b : Nat} (hb : 0 < b) : ceilDivN a b * b < a + b := by
  unfold ceilDivN
  have h1 : (a + b - 1) / b * b ≤ a + b - 1 := Nat.div_mul_le_self _ _
  generalize hE : (a + b - 1) / b * b = E at h1 ⊢
  omega

lemma dist_le_right {a b d : Nat} (h1 : a ≤ b) (h2 : b < a + d) :
    Nat.dist a b ≤ d := by
  simp only [Nat.dist]
  omega

/-! ### Helper lemmas: `roundAspectW` / `roundAspectH` -/

lemma roundAspectW_le {w h : Nat} (hh : 0 < h) (hA : w * 140 ≤ 250 * h) :
    roundAspectW w h 140 ≤ 250 := by
  unfold roundAspectW
  have hf1 : 140 * w / h * h ≤ 140 * w := Nat.div_mul_le_self _ _
  have hf3 : 140 * w ≤ ceilDivN (140 * w) h * h := le_ceilDivN_mul hh
  have hf4 : ceilDivN (140 * w) h * h < 140 * w + h := ceilDivN_mul_lt hh
  have hA' : 140 * w ≤ 250 * h := by
    rw [Nat.mul_comm] at hA
    exact hA
  have e1 : ceilDivN (140 * w) h * h < 251 * h := by
    have : (251 : Nat) * h = 250 * h + h := by ring
    omega
  have e2 : ceilDivN (140 * w) h < 251 :=
    lt_of_mul_lt_mul_right e1 (Nat.zero_le h)
  have e3 : 140 * w / h ≤ ceilDivN (140 * w) h := by
    have hmul : 140 * w / h * h ≤ ceilDivN (140 * w) h * h := le_trans hf1 hf3
    exact Nat.le_of_mul_le_mul_right hmul hh
  apply max_le _ (by omega)
  split_ifs <;> omega

lemma roundAspectW_dist {w h : Nat} (hw : 0 < w) (hh : 0 < h) :
    Nat.dist (roundAspectW w h 140 * h) (w * 140) ≤ max w h := by
  have hf1 : 140 * w / h * h ≤ 140 * w := Nat.div_mul_le_self _ _
  have hf2 : 140 * w < 140 * w / h * h + h := lt_div_mul_add hh
  have hf3 : 140 * w ≤ ceilDivN (140 * w) h * h := le_ceilDivN_mul hh
  have hf4 : ceilDivN (140 * w) h * h < 140 * w + h := ceilDivN_mul_lt hh
  rw [Nat.mul_comm w 140]
  simp only [roundAspectW]
  split_ifs with hk
  · by_cases hz : 140 * w / h = 0
    · have hlt : 140 * w < h := by
        rw [hz] at hf2
        simpa using hf2
      rw [hz, show (max 0 1 : Nat) = 1 from rfl, Nat.one_mul]
      refine le_trans ?_ (le_max_right w h)
      rw [Nat.dist_comm]
      exact dist_le_right (le_of_lt hlt) (by omega)
    · have h1 : 1 ≤ 140 * w / h := Nat.pos_of_ne_zero hz
      rw [max_eq_left h1]
      refine le_trans ?_ (le_max_right w h)
      exact dist_le_right hf1 hf2
  · have hn1 : 1 ≤ ceilDivN (140 * w) h := by
      rcases Nat.eq_zero_or_pos (ceilDivN (140 * w) h) with h0 | hpos
      · rw [h0] at hf3
        simp at hf3
        omega
      · exact hpos
    rw [max_eq_left hn1]
    refine le_trans ?_ (le_max_right w h)
    rw [Nat.dist_comm]
    exact dist_le_right hf3 hf4

lemma roundAspectH_le {w h : Nat} (hw : 0 < w) (hB : 250 * h < w * 140) :
    roundAspectH w h 250 ≤ 140 := by
  unfold roundAspectH
  have hf1 : 250 * h / w * w ≤ 250 * h := Nat.div_mul_le_self _ _
  have hf3 : 250 * h ≤ ceilDivN (250 * h) w * w := le_ceilDivN_mul hw
  have hf4 : ceilDivN (250 * h) w * w < 250 * h + w := ceilDivN_mul_lt hw
  have hB' : 250 * h < 140 * w := by
    rw [Nat.mul_comm w 140] at hB
    exact hB
  have e1 : ceilDivN (250 * h) w * w < 141 * w := by
    have : (141 : Nat) * w = 140 * w + w := by ring
    omega
  have e2 : ceilDivN (250 * h) w < 141 :=
    lt_of_mul_lt_mul_right e1 (Nat.zero_le w)
  have e3 : 250 * h / w ≤ ceilDivN (250 * h) w := by
    have hmul : 250 * h / w * w ≤ ceilDivN (250 * h) w * w := le_trans hf1 hf3
    exact Nat.le_of_mul_le_mul_right hmul hw
  apply max_le _ (by omega)
  split_ifs <;> omega

lemma roundAspectH_dist {w h : Nat} (hw : 0 < w) (hh : 0 < h) :
    Nat.dist (250 * h) (w * roundAspectH w h 250) ≤ max w h := by
  have hf1 : 250 * h / w * w ≤ 250 * h := Nat.div_mul_le_self _ _
  have hf2 : 250 * h < 250 * h / w * w + w := lt_div_mul_add hw
  have hf3 : 250 * h ≤ ceilDivN (250 * h) w * w := le_ceilDivN_mul hw
  have hf4 : ceilDivN (250 * h) w * w < 250 * h + w := ceilDivN_mul_lt hw
  simp only [roundAspectH]
  split_ifs with hz hk
  · -- nf = 0, pick = 0, y' = 1
    have hlt : 250 * h < w := by
      rw [hz] at hf2
      simpa using hf2
    rw [hz, show (max 0 1 : Nat) = 1 from rfl, Nat.mul_one]
    refine le_trans ?_ (le_max_left w h)
    exact dist_le_right (le_of_lt hlt) (by omega)
  · -- pick = nf ≥ 1
    have h1 : 1 ≤ 250 * h / w := Nat.pos_of_ne_zero hz
    rw [max_eq_left h1, Nat.mul_comm w]
    refine le_trans ?_ (le_max_left w h)
    rw [Nat.dist_comm]
    exact dist_le_right hf1 hf2
  · -- pick = nc ≥ 1
    have hn1 : 1 ≤ ceilDivN (250 * h) w := by
      rcases Nat.eq_zero_or_pos (ceilDivN (250 * h) w) with h0 | hpos
      · rw [h0] at hf3
        simp at hf3
        omega
      · exact hpos
    rw [max_eq_left hn1, Nat.mul_comm w]
    refine le_trans ?_ (le_max_left w h)
    exact dist_le_right hf3 hf4

/-! ### Claim C9: thumbnail resize bounds -/

/-- C9: for every source image of positive dimensions, the Pillow
`thumbnail((250, 140))` size computation yields a width at most 250 and a
height at most 140, leaves an image that already fits inside the box at its
original dimensions (downscale-only, never upscale), and preserves the
aspect ratio within rounding: the cross products `w' * h` and `w * h'`
differ by at most `max w h` (one rounding unit of the exact
aspect-preserving value). -/
theorem c9_theorem (w h : Nat) (hw : 1 ≤ w) (hh : 1 ≤ h) :
    (pilThumbnail w h 250 140).1 ≤ 250 ∧
      (pilThumbnail w h 250 140).2 ≤ 140 ∧
      (w ≤ 250 → h ≤ 140 → pilThumbnail w h 250 140 = (w, h)) ∧
      Nat.dist ((pilThumbnail w h 250 140).1 * h)
        (w * (pilThumbnail w h 250 140).2) ≤ max w h := by
  by_cases hfit : 250 ≥ w ∧ 140 ≥ h
  · have he : pilThumbnail w h 250 140 = (w, h) := by
      unfold pilThumbnail
      rw [if_pos hfit]
    rw [he]
    refine ⟨hfit.1, hfit.2, fun _ _ => rfl, ?_⟩
    rw [Nat.mul_comm w h, Nat.dist_self]
    exact Nat.zero_le _
  · by_cases hA : 250 * h ≥ w * 140
    · have he : pilThumbnail w h 250 140 = (roundAspectW w h 140, 140) := by
        unfold pilThumbnail
        rw [if_neg hfit, if_pos hA]
      rw [he]
      exact ⟨roundAspectW_le hh hA, le_refl 140,
        fun hw' hh' => absurd ⟨hw', hh'⟩ hfit,
        roundAspectW_dist hw hh⟩
    · have he : pilThumbnail w h 250 140 = (250, roundAspectH w h 250) := by
        unfold pilThumbnail
        rw [if_neg hfit, if_neg hA]
      rw [he]
      have hB : 250 * h < w * 140 := by omega
      exact ⟨le_refl 250, roundAspectH_le hw hB,
        fun hw' hh' => absurd ⟨hw', hh'⟩ hfit,
        roundAspectH_dist hw hh⟩

/-- C9 witness: the bounds at a concrete 2560 x 1440 source image. -/
theorem c9_witness :
    (pilThumbnail 2560 1440 250 140).1 ≤ 250 ∧
      (pilThumbnail 2560 1440 250 140).2 ≤ 140 ∧
      (2560 ≤ 250 → 1440 ≤ 140 → pilThumbnail 2560 1440 250 140 =
        (2560, 1440)) ∧
      Nat.dist ((pilThumbnail 2560 1440 250 140).1 * 1440)
        (2560 * (pilThumbnail 2560 1440 250 140).2) ≤ max 2560 1440 :=
  c9_theorem 2560 1440 (by decide) (by decide)

end ZWallpaper
